import Mathlib

/-!
Verification of the storage core of the annotated redis-3.0 sources.

Shallow embedding notes:
- Machine integers (uint32_t, long long, size_t) are modelled as Nat/Int; the
  bitwise operations of the C source on byte values are written with `%` and
  `/` by powers of two (for byte values `b`, `b & 0xFF = b % 256`,
  `b & 0x3F = b % 64`, `(b & 0xC0) >> 6 = b % 256 / 64`, and `x | y = x + y`
  whenever the set bits are disjoint, which holds at every use below).
- Byte strings are `List Nat` with each element a byte value.
- I/O streams are byte lists: writers return the written bytes, readers
  consume a list and return the remaining suffix; a failed `rioRead`
  (short read) is `none`.

The file is organised as definitions first (namespaces `RUtil`, `Rdb`,
`ZmallocM`, `TSet`), then the theorems about them.
-/

namespace RUtil

/-- isspace bytes recognised by strtoll when skipping leading whitespace:
space and the control characters 9..13. -/
def isSpaceByte (c : Nat) : Bool := c == 32 || (decide (9 ≤ c) && decide (c ≤ 13))

/-- ASCII decimal digit bytes. -/
def isDigitByte (c : Nat) : Bool := decide (48 ≤ c) && decide (c ≤ 57)

/-- strtoll (libc), base 10: skip leading whitespace, an optional sign, then
decimal digits; the result is the parsed value together with the number of
bytes consumed (`endptr - nptr`), which is 0 when no digit follows the sign.
long long overflow clamping is not modelled: the only caller below applies
this to strings of length ≤ 11, which cannot overflow. -/
def strtollBytes (s : List Nat) : Int × Nat :=
  let ws := (s.takeWhile isSpaceByte).length
  let rest := s.drop ws
  let signLen : Nat :=
    match rest with
    | 43 :: _ => 1
    | 45 :: _ => 1
    | _ => 0
  let neg : Bool :=
    match rest with
    | 45 :: _ => true
    | _ => false
  let digits := (rest.drop signLen).takeWhile isDigitByte
  if digits.length = 0 then (0, 0)
  else
    let mag : Nat := digits.foldl (fun a c => a * 10 + (c - 48)) 0
    (if neg then -(mag : Int) else (mag : Int), ws + signLen + digits.length)

/-- Decimal digit bytes of a natural number, most significant first; the
fuel argument (any bound on the digit count, `n + 1` suffices) makes the
recursion structural. -/
def natDecDigitsCore (fuel n : Nat) : List Nat :=
  match fuel with
  | 0 => []
  | f + 1 =>
    if n < 10 then [48 + n]
    else natDecDigitsCore f (n / 10) ++ [48 + n % 10]

/-- Decimal digit bytes of a natural number, most significant first. -/
def natDecDigits (n : Nat) : List Nat := natDecDigitsCore (n + 1) n

/-- Modelled from the spec: ll2string (util.c, which is not under src/) —
the canonical decimal representation of a 64-bit signed integer used by the
round-trip checks of spec §4.6 and §4.10: a minus sign for negatives, no
leading zeros, no whitespace. -/
def ll2string (v : Int) : List Nat :=
  if v < 0 then 45 :: natDecDigits (-v).toNat else natDecDigits v.toNat

end RUtil

namespace Rdb

/-- REDIS_RDB_6BITLEN (rdb.h): `00` length-codec tag. -/
def REDIS_RDB_6BITLEN : Nat := 0

/-- REDIS_RDB_14BITLEN (rdb.h): `01` length-codec tag. -/
def REDIS_RDB_14BITLEN : Nat := 1

/-- REDIS_RDB_32BITLEN (rdb.h): `10` length-codec tag. -/
def REDIS_RDB_32BITLEN : Nat := 2

/-- REDIS_RDB_ENCVAL (rdb.h): `11` special-encoding tag. -/
def REDIS_RDB_ENCVAL : Nat := 3

/-- REDIS_RDB_ENC_INT8 (rdb.h): special-encoding subtype 0. -/
def REDIS_RDB_ENC_INT8 : Nat := 0

/-- REDIS_RDB_ENC_INT16 (rdb.h): special-encoding subtype 1. -/
def REDIS_RDB_ENC_INT16 : Nat := 1

/-- REDIS_RDB_ENC_INT32 (rdb.h): special-encoding subtype 2. -/
def REDIS_RDB_ENC_INT32 : Nat := 2

/-- REDIS_RDB_ENC_LZF (rdb.h): special-encoding subtype 3. -/
def REDIS_RDB_ENC_LZF : Nat := 3

/-- rdbSaveLen (src/rdb.c:108): writes a length using the 6-bit form when
`len < 64` (one byte `(len & 0xFF) | (6BITLEN << 6)`), the 14-bit form when
`len < 16384` (bytes `((len >> 8) & 0xFF) | (14BITLEN << 6)` and `len & 0xFF`),
and otherwise the byte `32BITLEN << 6` followed by `htonl(len)`, i.e. `len`
in 4 big-endian bytes.  `len` is a `uint32_t`. -/
def rdbSaveLen (len : Nat) : List Nat :=
  if len < 64 then
    [len % 256 + REDIS_RDB_6BITLEN * 64]
  else if len < 16384 then
    [len / 256 % 256 + REDIS_RDB_14BITLEN * 64, len % 256]
  else
    [REDIS_RDB_32BITLEN * 64,
     len / 2 ^ 24 % 256, len / 2 ^ 16 % 256, len / 2 ^ 8 % 256, len % 256]

/-- rdbLoadLen (src/rdb.c:145): reads one byte, dispatches on its top two
bits `(buf[0] & 0xC0) >> 6`; tag `11` reports a special encoding (`isencoded`
= true) returning the low 6 bits, `00` returns the low 6 bits as a length,
`01` reads one more byte for a 14-bit length, `10` reads 4 more bytes and
returns `ntohl` of them (big-endian).  A short read (REDIS_RDB_LENERR) is
`none`; otherwise the result is `(isencoded, value, remaining bytes)`. -/
def rdbLoadLen : List Nat → Option (Bool × Nat × List Nat)
  | [] => none
  | b0 :: rest =>
    if b0 % 256 / 64 = REDIS_RDB_ENCVAL then
      some (true, b0 % 64, rest)
    else if b0 % 256 / 64 = REDIS_RDB_6BITLEN then
      some (false, b0 % 64, rest)
    else if b0 % 256 / 64 = REDIS_RDB_14BITLEN then
      match rest with
      | [] => none
      | b1 :: rest2 => some (false, b0 % 64 * 256 + b1 % 256, rest2)
    else
      match rest with
      | b1 :: b2 :: b3 :: b4 :: rest4 =>
        some (false,
          ((b1 % 256 * 256 + b2 % 256) * 256 + b3 % 256) * 256 + b4 % 256,
          rest4)
      | _ => none

/-- rdbEncodeInteger (src/rdb.c:192-218): when `value` fits int8, int16 or
int32 the bytes are `(ENCVAL << 6) | subtype` followed by the value in that
many little-endian two's-complement bytes; otherwise encoding fails
(the C function returns 0). -/
def rdbEncodeInteger (value : Int) : Option (List Nat) :=
  if -(2 ^ 7) ≤ value ∧ value ≤ 2 ^ 7 - 1 then
    some [REDIS_RDB_ENCVAL * 64 + REDIS_RDB_ENC_INT8, (value % 2 ^ 8).toNat]
  else if -(2 ^ 15) ≤ value ∧ value ≤ 2 ^ 15 - 1 then
    some [REDIS_RDB_ENCVAL * 64 + REDIS_RDB_ENC_INT16,
          (value % 2 ^ 16).toNat % 256, (value % 2 ^ 16).toNat / 256]
  else if -(2 ^ 31) ≤ value ∧ value ≤ 2 ^ 31 - 1 then
    some [REDIS_RDB_ENCVAL * 64 + REDIS_RDB_ENC_INT32,
          (value % 2 ^ 32).toNat % 256, (value % 2 ^ 32).toNat / 2 ^ 8 % 256,
          (value % 2 ^ 32).toNat / 2 ^ 16 % 256,
          (value % 2 ^ 32).toNat / 2 ^ 24]
  else none

/-- rdbTryIntegerEncoding (src/rdb.c:272-292): strtoll the string and fail
when the parse does not stop at a NUL (`endptr[0] != '\0'`: the byte at the
consumed position when inside the string — the sds terminator past the
logical length is zero); convert back with ll2string and fail unless the
round-trip reproduces the bytes exactly (`strlen(buf) == len` and
`memcmp(buf,s,len) == 0`); otherwise hand the value to rdbEncodeInteger. -/
def rdbTryIntegerEncoding (s : List Nat) : Option (List Nat) :=
  let vp := RUtil.strtollBytes s
  if vp.2 < s.length ∧ s.getD vp.2 0 ≠ 0 then none
  else
    let buf := RUtil.ll2string vp.1
    if buf.length ≠ s.length ∨ buf ≠ s then none
    else rdbEncodeInteger vp.1

/-- rdbSaveLzfStringObject (src/rdb.c:300-347): strings of length ≤ 4 are
never compressed; otherwise lzf_compress (external lzf_c.c, modelled as the
`lzf` parameter) is run with an output buffer of `len - 4` bytes, `none`
modelling the 0 return (output would not fit, i.e. compression is not
profitable); on success the bytes written are the `(ENCVAL << 6) | ENC_LZF`
tag, the compressed length and the uncompressed length (both through
rdbSaveLen), then the compressed bytes. -/
def rdbSaveLzfStringObject (lzf : List Nat → Nat → Option (List Nat))
    (s : List Nat) : Option (List Nat) :=
  if s.length ≤ 4 then none
  else
    match lzf s (s.length - 4) with
    | none => none
    | some out =>
      some ((REDIS_RDB_ENCVAL * 64 + REDIS_RDB_ENC_LZF) ::
        (rdbSaveLen out.length ++ rdbSaveLen s.length ++ out))

/-- rdbSaveRawString (src/rdb.c:389-435): for `len ≤ 11` first try the
integer encoding and return it on success; otherwise when
`server.rdb_compression` is set and `len > 20` try the LZF form and return
it when compression succeeded; otherwise write the plain form, the length
through rdbSaveLen followed by the raw bytes. -/
def rdbSaveRawString (lzf : List Nat → Nat → Option (List Nat))
    (rdb_compression : Bool) (s : List Nat) : List Nat :=
  match (if s.length ≤ 11 then rdbTryIntegerEncoding s else none) with
  | some enc => enc
  | none =>
    if rdb_compression ∧ 20 < s.length then
      match rdbSaveLzfStringObject lzf s with
      | some out => out
      | none => rdbSaveLen s.length ++ s
    else
      rdbSaveLen s.length ++ s

/-- rdbSaveRawStringSpec follows the spec's wording (§4.10: "A string is
written by first attempting integer encoding (if the string round-trips to
a value fitting int8/16/32 and length ≤ 11); else, if enabled and
length > 20, attempt LZF compression and keep if profitable; else write as
`length, bytes`"), stated as three mutually exclusive guarded cases.  It
exists only to be compared against `rdbSaveRawString`. -/
def rdbSaveRawStringSpec (lzf : List Nat → Nat → Option (List Nat))
    (rdb_compression : Bool) (s : List Nat) : List Nat :=
  if s.length ≤ 11 ∧ (rdbTryIntegerEncoding s).isSome then
    (rdbTryIntegerEncoding s).getD []
  else if rdb_compression ∧ 20 < s.length
      ∧ (rdbSaveLzfStringObject lzf s).isSome then
    (rdbSaveLzfStringObject lzf s).getD []
  else
    rdbSaveLen s.length ++ s

/-- Outcome of the tail of `rdbLoad`: normal return (REDIS_OK), a fatal
`exit(1)` on checksum mismatch, or the `eoferr` fatal exit on a short read. -/
inductive LoadResult
  | ok
  | fatalExit
  | eofErr
deriving DecidableEq

/-- rdbLoad trailer verification (src/rdb.c:1684-1698): when the file version
is at least 5 and `server.rdb_checksum` is on, read the 8-byte trailer
(short read is the `eoferr` exit); a zero trailer is accepted with only a
warning log, a non-zero trailer different from the checksum computed over
the preceding bytes (`rdb.cksum`) is a fatal `exit(1)`, and otherwise the
load returns REDIS_OK.  `trailer = none` models the short read. -/
def rdbLoadVerifyChecksum (rdbver : Nat) (rdb_checksum : Bool)
    (computed : Nat) (trailer : Option Nat) : LoadResult :=
  if 5 ≤ rdbver ∧ rdb_checksum then
    match trailer with
    | none => .eofErr
    | some cksum =>
      if cksum = 0 then .ok
      else if cksum ≠ computed then .fatalExit
      else .ok
  else .ok

/-- A logical database (redisDb): the keyspace dict and the expires dict
(spec §3 C8), modelled as association lists.  Keys are byte strings; loaded
value objects are left as a type parameter. -/
structure RedisDb (V : Type) where
  keyspace : List (List Nat × V)
  expires : List (List Nat × Int)

/-- dbAdd (db.c, called from rdbLoad): associate a fresh key with a value in
the keyspace (the key is known to be absent during load). -/
def dbAdd {V : Type} (db : RedisDb V) (k : List Nat) (v : V) : RedisDb V :=
  { db with keyspace := (k, v) :: db.keyspace }

/-- setExpire (db.c, called from rdbLoad): record an absolute millisecond
deadline for a key in the expires dict. -/
def setExpire {V : Type} (db : RedisDb V) (k : List Nat) (t : Int) :
    RedisDb V :=
  { db with expires := (k, t) :: db.expires }

/-- rdbLoad per-record key insertion (src/rdb.c:1655-1678): after reading a
key and value, if the server has no master (`server.masterhost == NULL`, a
primary) and the record carried an expiry (`expiretime != -1`) strictly in
the past (`expiretime < now`), the pair is discarded; otherwise `dbAdd`
inserts it and, when an expiry was read, `setExpire` records it. -/
def rdbLoadAddRecord {V : Type} (masterhost : Option (List Nat)) (now : Int)
    (db : RedisDb V) (key : List Nat) (val : V) (expiretime : Int) :
    RedisDb V :=
  if masterhost = none ∧ expiretime ≠ -1 ∧ expiretime < now then db
  else
    let db1 := dbAdd db key val
    if expiretime ≠ -1 then setExpire db1 key expiretime else db1

/-- The persistence-related fields of `struct redisServer` touched by the
background-save protocol (REDIS_OK is `true` in `lastbgsave_status`). -/
structure ServerPersistState where
  dirty : Int
  dirty_before_bgsave : Int
  lastsave : Int
  lastbgsave_status : Bool
  rdb_child_pid : Int
  rdb_save_time_start : Int
  rdb_save_time_last : Int
  lastbgsave_try : Int

/-- SIGUSR1 on the modelled platform (whitelisted kill signal). -/
def SIGUSR1 : Int := 10

/-- backgroundSaveDoneHandler (src/rdb.c:1716-1751): on a normal exit with
status 0 it sets `dirty = dirty - dirty_before_bgsave`, `lastsave = now`,
and status to success; a non-zero exit marks failure; termination by a
signal other than SIGUSR1 marks failure; in every case the child pid is
cleared and the save duration recorded. -/
def backgroundSaveDoneHandler (st : ServerPersistState)
    (exitcode bysignal now : Int) : ServerPersistState :=
  let st1 :=
    if bysignal = 0 ∧ exitcode = 0 then
      { st with dirty := st.dirty - st.dirty_before_bgsave,
                lastsave := now,
                lastbgsave_status := true }
    else if bysignal = 0 then
      { st with lastbgsave_status := false }
    else if bysignal ≠ SIGUSR1 then
      { st with lastbgsave_status := false }
    else st
  { st1 with rdb_child_pid := -1,
             rdb_save_time_last := now - st.rdb_save_time_start,
             rdb_save_time_start := -1 }

/-- rdbSaveBackground, parent path (src/rdb.c:1028-1100): refuses when a
child is already running, otherwise records `dirty_before_bgsave = dirty`,
the attempt time, the fork time and the child pid. -/
def rdbSaveBackground (st : ServerPersistState) (now childpid : Int) :
    ServerPersistState :=
  if st.rdb_child_pid ≠ -1 then st
  else
    { st with dirty_before_bgsave := st.dirty,
              lastbgsave_try := now,
              rdb_save_time_start := now,
              rdb_child_pid := childpid }

/-- Command write paths only ever bump the dirty counter by a non-negative
amount: `server.dirty += added` (saddCommand), `+= deleted` (sremCommand),
and `server.dirty++` (spopCommand, smoveCommand, sinterGenericCommand,
sunionDiffGenericCommand). -/
def commandDirtyAdd (st : ServerPersistState) (delta : Nat) :
    ServerPersistState :=
  { st with dirty := st.dirty + delta }

end Rdb

namespace ZmallocM

/-- PREFIX_SIZE (zmalloc.c:49-57): `sizeof(size_t)` = 8 on the modelled
LP64 platform without HAVE_MALLOC_SIZE, where a size header is stored ahead
of every returned pointer. -/
def PREFIX_SIZE : Nat := 8

/-- SIZE_T_MOD: size_t arithmetic is modulo 2^64 on the modelled platform. -/
def SIZE_T_MOD : Nat := 2 ^ 64

/-- update_zmalloc_stat rounding (zmalloc.c:94-114):
`if (_n & (sizeof(long)-1)) _n += sizeof(long) - (_n & (sizeof(long)-1))`,
i.e. round `n` up to a multiple of `sizeof(long)` = 8. -/
def roundAlign (n : Nat) : Nat :=
  if n % 8 = 0 then n else n + (8 - n % 8)

/-- update_zmalloc_stat_alloc: `used_memory += roundAlign n` in size_t. -/
def statAlloc (um n : Nat) : Nat := (um + roundAlign n) % SIZE_T_MOD

/-- update_zmalloc_stat_free: `used_memory -= roundAlign n` in size_t. -/
def statFree (um n : Nat) : Nat :=
  (um + (SIZE_T_MOD - roundAlign n % SIZE_T_MOD)) % SIZE_T_MOD

/-- zmalloc (zmalloc.c:132-144), accounting effect on `used_memory` in the
no-HAVE_MALLOC_SIZE path: the stored size is `size` and the counter grows by
the word-aligned `size + PREFIX_SIZE`. -/
def zmallocUM (um size : Nat) : Nat := statAlloc um (size + PREFIX_SIZE)

/-- zfree (zmalloc.c:205-221), accounting effect: reads back the stored
size and shrinks the counter by the word-aligned `oldsize + PREFIX_SIZE`. -/
def zfreeUM (um oldsize : Nat) : Nat := statFree um (oldsize + PREFIX_SIZE)

/-- zrealloc (zmalloc.c:161-188), accounting effect in the
no-HAVE_MALLOC_SIZE path: `update_zmalloc_stat_free(oldsize)` then
`update_zmalloc_stat_alloc(size)` (both without the prefix). -/
def zreallocUM (um oldsize size : Nat) : Nat :=
  statAlloc (statFree um oldsize) size

end ZmallocM

namespace TSet

/-- Set members are string objects, i.e. byte strings. -/
abbrev SVal := List Nat

/-- Decimal value of a digit-byte list (used under a canonicity check that
rules out any non-digit input). -/
def digitsVal (ds : List Nat) : Nat := ds.foldl (fun a c => a * 10 + (c - 48)) 0

/-- Modelled from the spec: isObjectRepresentableAsLongLong (object.c,
which is not under src/) — per spec §4.6 a string is representable as a
64-bit signed integer exactly when it parses as one and the round-trip
through the canonical decimal form (RUtil.ll2string) reproduces the
original bytes, the value fitting a signed 64-bit integer. -/
def isRepresentableAsLongLong (s : SVal) : Option Int :=
  let v : Int :=
    match s with
    | 45 :: ds => -(digitsVal ds : Int)
    | _ => (digitsVal s : Int)
  if RUtil.ll2string v = s ∧ -(2 ^ 63) ≤ v ∧ v < 2 ^ 63 then some v else none

/-- The two set encodings: REDIS_ENCODING_INTSET and REDIS_ENCODING_HT. -/
inductive SetEnc
  | intset
  | ht
deriving DecidableEq

/-- A set value object, by encoding: an intset holds integers (contents as
a `Finset Int`, the sorted-array layout abstracted to its member set), a
dict holds string-object keys (contents as a `Finset SVal`). -/
inductive SetObj
  | intset (s : Finset Int)
  | ht (d : Finset SVal)

/-- The `encoding` field of the set object. -/
def SetObj.enc : SetObj → SetEnc
  | .intset _ => .intset
  | .ht _ => .ht

/-- setTypeConvert (part_000:706-740): iterate the intset, create a string
object for each integer (createStringObjectFromLongLong; its bytes are the
canonical decimal form) and add it to a new presized dict; the object's
encoding becomes REDIS_ENCODING_HT. -/
def setTypeConvert (s : Finset Int) : SetObj := .ht (s.image RUtil.ll2string)

/-- setTypeAdd (part_000:427-472): on a dict, dictAdd succeeds only for a
new member; on an intset, a value representable as a long long is
intsetAdd-ed and the object converts to a dict when the length then exceeds
`server.set_max_intset_entries` (here the `set_max_intset_entries`
parameter), while a non-representable value first converts the object then
dictAdds it (the converted contents, then the inserted value).  Returns the
new object and 1 when the element was added. -/
def setTypeAdd (set_max_intset_entries : Nat) (o : SetObj) (v : SVal) :
    SetObj × Bool :=
  match o with
  | .ht d => if v ∈ d then (o, false) else (.ht (insert v d), true)
  | .intset s =>
    match isRepresentableAsLongLong v with
    | some ll =>
      if ll ∈ s then (o, false)
      else
        let s2 := insert ll s
        if set_max_intset_entries < s2.card then (setTypeConvert s2, true)
        else (.intset s2, true)
    | none => (.ht (insert v (s.image RUtil.ll2string)), true)

/-- setTypeRemove (part_000:477-505): dictDelete on a dict (the possible
dictResize only retunes the internal bucket count); on an intset,
intsetRemove when the value parses as an integer.  Returns 1 when a member
was removed. -/
def setTypeRemove (o : SetObj) (v : SVal) : SetObj × Bool :=
  match o with
  | .ht d => if v ∈ d then (.ht (d.erase v), true) else (o, false)
  | .intset s =>
    match isRepresentableAsLongLong v with
    | some ll => if ll ∈ s then (.intset (s.erase ll), true) else (o, false)
    | none => (o, false)

/-- setTypeIsMember (part_000:510-528). -/
def setTypeIsMember (o : SetObj) (v : SVal) : Bool :=
  match o with
  | .ht d => decide (v ∈ d)
  | .intset s =>
    match isRepresentableAsLongLong v with
    | some ll => decide (ll ∈ s)
    | none => false

/-- setTypeSize (part_000:690-698). -/
def setTypeSize : SetObj → Nat
  | .ht d => d.card
  | .intset s => s.card

/-- The member-content view of the set algebra of sunionDiffGenericCommand
(part_000:1428-1591): input sets are their member sets (string objects; an
intset member is read back through createStringObjectFromLongLong, so its
bytes are the canonical decimal form), and a NULL entry is an absent key. -/
def diffAlgo1Keeps (A : Finset SVal) (x : SVal) :
    List (Option (Finset SVal)) → Bool
  | [] => true
  | none :: rest => diffAlgo1Keeps A x rest
  | some B :: rest =>
    if B = A then false
    else if x ∈ B then false
    else diffAlgo1Keeps A x rest

/-- DIFF algorithm 1 (part_000:1527-1558): iterate the first set and keep
exactly the elements that survive the scan of the other sets — a NULL set
is skipped, a set identical to the first drops the element (the
`sets[j] == sets[0]` break), membership in a set drops the element.  The
pre-sorting of the other sets by falling cardinality (part_000:1490-1498)
only permutes the scan order. -/
def sdiffAlgo1 (A : Finset SVal) (Bs : List (Option (Finset SVal))) :
    Finset SVal :=
  A.filter (fun x => diffAlgo1Keeps A x Bs = true)

/-- DIFF algorithm 2, iterations j ≥ 1 (part_000:1561-1590): every further
set's elements are removed from the accumulated result (`cardinality`
tracks the accumulator's size), and the loop exits early when the
accumulator is empty. -/
def sdiffAlgo2Go (acc : Finset SVal) :
    List (Option (Finset SVal)) → Finset SVal
  | [] => acc
  | none :: rest => sdiffAlgo2Go acc rest
  | some B :: rest =>
    let acc2 := acc \ B
    if acc2.card = 0 then acc2 else sdiffAlgo2Go acc2 rest

/-- DIFF algorithm 2 (part_000:1561-1590): iteration j = 0 inserts every
element of the first set into the empty result (every add succeeds), with
the same early-exit check, then the further sets are subtracted. -/
def sdiffAlgo2 (A : Finset SVal) (Bs : List (Option (Finset SVal))) :
    Finset SVal :=
  if A.card = 0 then A else sdiffAlgo2Go A Bs

/-- The cost estimate (part_000:1471-1488): `algo_one_work` accumulates
`|sets[0]|` once per non-NULL input set and is halved, `algo_two_work` is
the sum of all non-NULL input cardinalities; algorithm 1 is chosen when its
halved estimate is not larger. -/
def selectDiffAlgo (A : Finset SVal) (Bs : List (Option (Finset SVal))) :
    Nat :=
  let inputs := (some A :: Bs).filterMap id
  let algo_one_work := inputs.length * A.card / 2
  let algo_two_work := (inputs.map Finset.card).sum
  if algo_one_work ≤ algo_two_work then 1 else 2

/-- The DIFF path of sunionDiffGenericCommand with the first input set
present: run whichever algorithm the cost estimate picks. -/
def sdiffResult (A : Finset SVal) (Bs : List (Option (Finset SVal))) :
    Finset SVal :=
  if selectDiffAlgo A Bs = 1 then sdiffAlgo1 A Bs else sdiffAlgo2 A Bs

/-- dictAdd into the temporary result dict of srandmemberWithCountCommand
(part_000:992-1181): keys are string objects, adding a duplicate fails.
The dict is modelled as a duplicate-free list of keys; a new key is
appended (a dict's iteration order is unspecified). -/
def dictAddL (d : List SVal) (x : SVal) : List SVal × Bool :=
  if x ∈ d then (d, false) else (d ++ [x], true)

/-- The union branch of sunionDiffGenericCommand as invoked with the single
input set by srandmemberWithCountCommand when `count >= size`
(part_000:1060-1063): every element of every (here: the one) input set is
added to the initially empty result, deduplicating. -/
def sunionSingleReply (S : List SVal) : List SVal :=
  S.foldl (fun d x => (dictAddL d x).1) []

/-- setTypeRandomElement / dictGetRandomKey: the randomness is an index
stream, and a pick from a non-empty collection takes the entry at the
random index modulo the size. -/
def pickL (d : List SVal) (r : Nat) : SVal := d.getD (r % d.length) []

/-- CASE 3 of srandmemberWithCountCommand (part_000:1086-1129): after the
whole set was copied into the working dict, random members are removed one
at a time until `count` remain; `steps = size - count` removals run. -/
def case3Loop (rand : Nat → Nat) : Nat → Nat → List SVal → List SVal
  | _, 0, d => d
  | k, steps + 1, d =>
    case3Loop rand (k + 1) steps (d.erase (pickL d (rand k)))

/-- CASE 4 of srandmemberWithCountCommand (part_000:1140-1164): while fewer
than `count` members were added, draw a random member of the set and try to
dictAdd it to the working dict, dropping duplicates.  The probabilistically
terminating loop is given fuel; `none` models running out of fuel. -/
def case4Loop (rand : Nat → Nat) (S : List SVal) (count : Nat) :
    Nat → Nat → List SVal → Option (List SVal)
  | _, 0, _ => none
  | k, fuel + 1, d =>
    if count ≤ d.length then some d
    else case4Loop rand S count (k + 1) fuel (dictAddL d (pickL S (rand k))).1

/-- srandmemberWithCountCommand (part_000:992-1181) for a non-negative
count (the distinct-members path): count 0 replies the empty multi-bulk at
once; `count >= size` replies the whole set through the single-set union;
`count*3 > size` uses the subtraction strategy (CASE 3); otherwise the
insertion strategy (CASE 4).  The reply lists the working dict's keys. -/
def srandmemberWithCount (rand : Nat → Nat) (fuel : Nat) (S : List SVal)
    (count : Nat) : Option (List SVal) :=
  if count = 0 then some []
  else if S.length ≤ count then some (sunionSingleReply S)
  else if S.length < count * 3 then
    some (case3Loop rand 0 (S.length - count) S)
  else case4Loop rand S count 0 fuel []

/-- A database keyspace restricted to set-valued keys, content-level: an
association list from key to member set (an encoding change never changes
the member set, and the C10 claim is about member counts). -/
abbrev SetDb := List (SVal × Finset SVal)

/-- dbDelete (db.c): drop the key from the keyspace. -/
def dbDeleteSet (db : SetDb) (k : SVal) : SetDb :=
  db.filter (fun kv => decide (kv.1 ≠ k))

/-- dbAdd (db.c) for a store destination whose old value was deleted just
before. -/
def dbAddSet (db : SetDb) (k : SVal) (v : Finset SVal) : SetDb :=
  (k, v) :: db

/-- In-place mutation of the stored set object, materialised as an update
of the association list entry. -/
def dbUpdateSet (db : SetDb) (k : SVal) (v : Finset SVal) : SetDb :=
  db.map (fun kv => if kv.1 = k then (k, v) else kv)

/-- lookupKeyWrite on the keyspace (type checks elided: all values here are
sets). -/
def dbLookupSet (db : SetDb) (k : SVal) : Option (Finset SVal) :=
  (db.find? (fun kv => decide (kv.1 = k))).map (fun kv => kv.2)

/-- The removal loop of sremCommand (part_000:792-803): each argument is
setTypeRemoved; as soon as a successful removal empties the set the key is
deleted from the database and the loop breaks; otherwise the mutated set
remains stored under the key. -/
def sremLoop (db : SetDb) (k : SVal) : Finset SVal → List SVal → SetDb
  | S, [] => dbUpdateSet db k S
  | S, x :: args =>
    if x ∈ S then
      let S2 := S.erase x
      if S2.card = 0 then dbDeleteSet db k
      else sremLoop db k S2 args
    else sremLoop db k S args

/-- sremCommand (part_000:783-820): missing key (or the early reply) leaves
the database unchanged; otherwise run the removal loop. -/
def sremCommand (db : SetDb) (k : SVal) (args : List SVal) : SetDb :=
  match dbLookupSet db k with
  | none => db
  | some S => sremLoop db k S args

/-- spopCommand (part_000:925-973): the randomly chosen member `x`
(setTypeRandomElement of a stored, hence non-empty, set) is removed, and
the key is deleted when the set became empty. -/
def spopCommand (db : SetDb) (k : SVal) (x : SVal) : SetDb :=
  match dbLookupSet db k with
  | none => db
  | some S =>
    let S2 := S.erase x
    if S2.card = 0 then dbDeleteSet db k else dbUpdateSet db k S2

/-- The store tail shared by sinterGenericCommand (part_000:1382-1404) and
sunionDiffGenericCommand (part_000:1609-1636): the destination key's old
value is deleted, and the computed result set is stored only when it is
non-empty. -/
def setStoreResult (db : SetDb) (dstkey : SVal) (dstset : Finset SVal) :
    SetDb :=
  let db1 := dbDeleteSet db dstkey
  if 0 < dstset.card then dbAddSet db1 dstkey dstset else db1

/-- The C10 invariant: every set value reachable through the keyspace has
at least one member. -/
def setsNonempty (db : SetDb) : Prop := ∀ kv ∈ db, 0 < (kv.2 : Finset SVal).card

end TSet

namespace Rdb

/-- rdbSaveLen writes the one-byte 6-bit form for `n < 64`. -/
theorem rdbSaveLen_small (n : Nat) (h : n < 64) : rdbSaveLen n = [n] := by
  unfold rdbSaveLen REDIS_RDB_6BITLEN
  rw [if_pos h]
  have e : n % 256 + 0 * 64 = n := by omega
  rw [e]

/-- rdbSaveLen writes the two-byte 14-bit form for `64 ≤ n < 16384`. -/
theorem rdbSaveLen_mid (n : Nat) (h1 : 64 ≤ n) (h2 : n < 16384) :
    rdbSaveLen n = [n / 256 + 64, n % 256] := by
  unfold rdbSaveLen REDIS_RDB_14BITLEN
  rw [if_neg (by omega), if_pos h2]
  have e : n / 256 % 256 + 1 * 64 = n / 256 + 64 := by omega
  rw [e]

/-- rdbSaveLen writes the `0x80` marker and 4 big-endian bytes for
`16384 ≤ n < 2^32`. -/
theorem rdbSaveLen_big (n : Nat) (h1 : 16384 ≤ n) (h2 : n < 2 ^ 32) :
    rdbSaveLen n =
      [128, n / 2 ^ 24, n / 2 ^ 16 % 256, n / 2 ^ 8 % 256, n % 256] := by
  unfold rdbSaveLen REDIS_RDB_32BITLEN
  rw [if_neg (by omega), if_neg (by omega)]
  have e1 : (2 : Nat) * 64 = 128 := by omega
  have e2 : n / 2 ^ 24 % 256 = n / 2 ^ 24 := by omega
  rw [e1, e2]

/-- rdbLoadLen on a 6-bit-form first byte. -/
theorem rdbLoadLen_small (n : Nat) (h : n < 64) (rest : List Nat) :
    rdbLoadLen (n :: rest) = some (false, n, rest) := by
  simp only [rdbLoadLen, REDIS_RDB_ENCVAL, REDIS_RDB_6BITLEN]
  rw [if_neg (by omega), if_pos (by omega)]
  have e : n % 64 = n := by omega
  rw [e]

/-- rdbLoadLen on a 14-bit-form byte pair. -/
theorem rdbLoadLen_mid (n : Nat) (h1 : 64 ≤ n) (h2 : n < 16384)
    (rest : List Nat) :
    rdbLoadLen ((n / 256 + 64) :: n % 256 :: rest) = some (false, n, rest) := by
  simp only [rdbLoadLen, REDIS_RDB_ENCVAL, REDIS_RDB_6BITLEN,
    REDIS_RDB_14BITLEN]
  rw [if_neg (by omega), if_neg (by omega), if_pos (by omega)]
  have e : (n / 256 + 64) % 64 * 256 + n % 256 % 256 = n := by omega
  rw [e]

/-- rdbLoadLen on the 32-bit form: marker byte then 4 big-endian bytes. -/
theorem rdbLoadLen_big (n : Nat) (h2 : n < 2 ^ 32) (rest : List Nat) :
    rdbLoadLen
      (128 :: n / 2 ^ 24 :: n / 2 ^ 16 % 256 :: n / 2 ^ 8 % 256 ::
        n % 256 :: rest) = some (false, n, rest) := by
  simp only [rdbLoadLen, REDIS_RDB_ENCVAL, REDIS_RDB_6BITLEN,
    REDIS_RDB_14BITLEN]
  rw [if_neg (by omega), if_neg (by omega), if_neg (by omega)]
  have e : ((n / 2 ^ 24 % 256 * 256 + n / 2 ^ 16 % 256 % 256) * 256 +
      n / 2 ^ 8 % 256 % 256) * 256 + n % 256 % 256 = n := by omega
  rw [e]

/-- C1: for every length `n < 2^32`, loading a length written by `rdbSaveLen`
returns `n` with `isencoded = false` (a plain length, not a special
encoding), and the bytes written are the 6-bit form for `n < 64`, the 14-bit
form for `n < 16384`, and otherwise the `0x80` marker byte followed by `n`
in 4 big-endian bytes. -/
theorem rdbLoadLen_inverts_rdbSaveLen (n : Nat) (hn : n < 2 ^ 32)
    (rest : List Nat) :
    rdbLoadLen (rdbSaveLen n ++ rest) = some (false, n, rest)
    ∧ (n < 64 → rdbSaveLen n = [n])
    ∧ (64 ≤ n → n < 16384 → rdbSaveLen n = [n / 256 + 64, n % 256])
    ∧ (16384 ≤ n → rdbSaveLen n =
        [128, n / 2 ^ 24, n / 2 ^ 16 % 256, n / 2 ^ 8 % 256, n % 256]) := by
  by_cases h1 : n < 64
  · refine ⟨?_, fun _ => rdbSaveLen_small n h1,
      fun h _ => absurd h (by omega), fun h => absurd h (by omega)⟩
    rw [rdbSaveLen_small n h1]
    exact rdbLoadLen_small n h1 rest
  · by_cases h2 : n < 16384
    · refine ⟨?_, fun h => absurd h h1,
        fun _ _ => rdbSaveLen_mid n (by omega) h2, fun h => absurd h (by omega)⟩
      rw [rdbSaveLen_mid n (by omega) h2]
      exact rdbLoadLen_mid n (by omega) h2 rest
    · refine ⟨?_, fun h => absurd h h1, fun _ h => absurd h h2,
        fun _ => rdbSaveLen_big n (by omega) hn⟩
      rw [rdbSaveLen_big n (by omega) hn]
      exact rdbLoadLen_big n hn rest

/-- C1 witness: the three forms at concrete lengths, via the main theorem. -/
theorem rdbLoadLen_inverts_rdbSaveLen_witness :
    (7 : Nat) < 2 ^ 32
    ∧ rdbLoadLen (rdbSaveLen 7 ++ [9]) = some (false, 7, [9])
    ∧ rdbLoadLen (rdbSaveLen 300 ++ []) = some (false, 300, [])
    ∧ rdbLoadLen (rdbSaveLen 70000 ++ []) = some (false, 70000, []) :=
  ⟨by norm_num,
   (rdbLoadLen_inverts_rdbSaveLen 7 (by norm_num) [9]).1,
   (rdbLoadLen_inverts_rdbSaveLen 300 (by norm_num) []).1,
   (rdbLoadLen_inverts_rdbSaveLen 70000 (by norm_num) []).1⟩

/-- C2: `rdbSaveRawString` writes a string in exactly the priority order the
spec gives: the integer special form when the length is at most 11 and the
integer round-trip encoding succeeds; otherwise the LZF form when
compression is enabled, the length exceeds 20 and LZF compression is
profitable; otherwise the plain length-then-bytes form — for every
compression oracle `lzf`, every compression setting and every byte string. -/
theorem rdbSaveRawString_priority (lzf : List Nat → Nat → Option (List Nat))
    (rdb_compression : Bool) (s : List Nat) :
    rdbSaveRawString lzf rdb_compression s
      = rdbSaveRawStringSpec lzf rdb_compression s := by
  cases rdb_compression <;>
    by_cases h11 : s.length ≤ 11 <;>
    by_cases h20 : 20 < s.length <;>
    cases henc : rdbTryIntegerEncoding s <;>
    cases hlz : rdbSaveLzfStringObject lzf s <;>
    simp [rdbSaveRawString, rdbSaveRawStringSpec, h11, h20, henc, hlz]

/-- C3: with version ≥ 5 and checksum verification enabled, a zero stored
trailer is accepted regardless of the computed checksum (no comparison), and
a non-zero trailer differing from the computed checksum aborts fatally. -/
theorem rdbLoad_checksum_trailer_check (rdbver computed : Nat)
    (h5 : 5 ≤ rdbver) :
    rdbLoadVerifyChecksum rdbver true computed (some 0) = .ok
    ∧ (∀ t, t ≠ 0 → t ≠ computed →
        rdbLoadVerifyChecksum rdbver true computed (some t) = .fatalExit) := by
  constructor
  · simp [rdbLoadVerifyChecksum, h5]
  · intro t ht htc
    simp [rdbLoadVerifyChecksum, h5, ht, htc]

/-- C3 witness: version 6, computed checksum 12345. -/
theorem rdbLoad_checksum_trailer_check_witness :
    rdbLoadVerifyChecksum 6 true 12345 (some 0) = .ok
    ∧ rdbLoadVerifyChecksum 6 true 12345 (some 99) = .fatalExit :=
  ⟨(rdbLoad_checksum_trailer_check 6 12345 (by norm_num)).1,
   (rdbLoad_checksum_trailer_check 6 12345 (by norm_num)).2 99
     (by norm_num) (by norm_num)⟩

/-- C4: a record whose expiry deadline is strictly in the past is dropped
entirely (keyspace and expires are untouched) when the server is a primary
(no master configured), and is inserted with its expiry when the server is a
replica, regardless of the deadline being past. -/
theorem rdbLoad_expired_key_policy {V : Type} (now : Int) (db : RedisDb V)
    (key : List Nat) (val : V) (expiretime : Int)
    (hexp : expiretime ≠ -1) (hpast : expiretime < now) :
    rdbLoadAddRecord none now db key val expiretime = db
    ∧ (∀ host : List Nat,
        (key, val) ∈
          (rdbLoadAddRecord (some host) now db key val expiretime).keyspace
        ∧ (key, expiretime) ∈
          (rdbLoadAddRecord (some host) now db key val expiretime).expires) := by
  constructor
  · simp [rdbLoadAddRecord, hexp, hpast]
  · intro host
    simp [rdbLoadAddRecord, hexp, hpast, dbAdd, setExpire]

/-- C4 witness: a past deadline (5 < 100) on a primary is dropped, and on a
replica it is inserted with its expiry. -/
theorem rdbLoad_expired_key_policy_witness :
    rdbLoadAddRecord (V := Nat) none 100 ⟨[], []⟩ [107] 42 5 = ⟨[], []⟩
    ∧ ([107], 42) ∈
        (rdbLoadAddRecord (V := Nat) (some [109]) 100 ⟨[], []⟩ [107] 42 5).keyspace
    ∧ ([107], (5 : Int)) ∈
        (rdbLoadAddRecord (V := Nat) (some [109]) 100 ⟨[], []⟩ [107] 42 5).expires :=
  ⟨(rdbLoad_expired_key_policy (V := Nat) 100 ⟨[], []⟩ [107] 42 5
      (by norm_num) (by norm_num)).1,
   ((rdbLoad_expired_key_policy (V := Nat) 100 ⟨[], []⟩ [107] 42 5
      (by norm_num) (by norm_num)).2 [109]).1,
   ((rdbLoad_expired_key_policy (V := Nat) 100 ⟨[], []⟩ [107] 42 5
      (by norm_num) (by norm_num)).2 [109]).2⟩

/-- C7: a background save child forked after `rdbSaveBackground` (which
records `dirty_before_bgsave`) that exits normally with status 0 makes the
handler set `dirty` to its current value minus the recorded value, update
`lastsave`, and set the status flag to success; every other dirty-counter
path between saves is a non-negative increment. -/
theorem backgroundSaveDone_dirty_update (st : ServerPersistState)
    (now now0 childpid : Int) :
    (backgroundSaveDoneHandler st 0 0 now).dirty
        = st.dirty - st.dirty_before_bgsave
    ∧ (backgroundSaveDoneHandler st 0 0 now).lastsave = now
    ∧ (backgroundSaveDoneHandler st 0 0 now).lastbgsave_status = true
    ∧ (st.rdb_child_pid = -1 →
        (rdbSaveBackground st now0 childpid).dirty_before_bgsave = st.dirty)
    ∧ (∀ delta : Nat, st.dirty ≤ (commandDirtyAdd st delta).dirty) := by
  refine ⟨by simp [backgroundSaveDoneHandler], by simp [backgroundSaveDoneHandler],
    by simp [backgroundSaveDoneHandler], ?_, ?_⟩
  · intro h
    simp [rdbSaveBackground, h]
  · intro delta
    simp only [commandDirtyAdd]
    omega

/-- C7 witness: concrete server state before/after a successful BGSAVE. -/
theorem backgroundSaveDone_dirty_update_witness :
    ((⟨17, 0, 0, false, -1, 0, 0, 0⟩ : ServerPersistState).rdb_child_pid = -1
      → (rdbSaveBackground ⟨17, 0, 0, false, -1, 0, 0, 0⟩ 50 77).dirty_before_bgsave = 17)
    ∧ (backgroundSaveDoneHandler ⟨17, 5, 0, false, 77, 50, 0, 50⟩ 0 0 60).dirty = 12 := by
  refine ⟨(backgroundSaveDone_dirty_update ⟨17, 0, 0, false, -1, 0, 0, 0⟩ 60 50 77).2.2.2.1, ?_⟩
  have h := (backgroundSaveDone_dirty_update ⟨17, 5, 0, false, 77, 50, 0, 50⟩ 60 50 77).1
  rw [h]
  norm_num

end Rdb

namespace ZmallocM

/-- roundAlign in a single closed form. -/
theorem roundAlign_eq (n : Nat) : roundAlign n = n + (8 - n % 8) % 8 := by
  unfold roundAlign
  split <;> omega

/-- C9: `zmalloc(s)` adds exactly the word-aligned `s + PREFIX_SIZE` to the
live-bytes counter, `zfree` of that block subtracts the same amount and
restores the pre-allocation value, and the balance also holds across a
`zrealloc` of the block, so allocate-(reallocate)-free is the identity on
the counter. -/
theorem zmalloc_accounting_balance (um s0 s1 : Nat) (hum : um < 2 ^ 64)
    (h0 : s0 + 16 < 2 ^ 64) (h1 : s1 + 16 < 2 ^ 64) :
    (um + roundAlign (s0 + PREFIX_SIZE) < 2 ^ 64 →
        zmallocUM um s0 = um + roundAlign (s0 + PREFIX_SIZE))
    ∧ zfreeUM (zmallocUM um s0) s0 = um
    ∧ zfreeUM (zreallocUM (zmallocUM um s0) s0 s1) s1 = um := by
  simp only [zmallocUM, zfreeUM, zreallocUM, statAlloc, statFree,
    roundAlign_eq, PREFIX_SIZE, SIZE_T_MOD]
  omega

/-- C9 witness: counter 1000, allocation of 13 bytes, reallocation to 29. -/
theorem zmalloc_accounting_balance_witness :
    zmallocUM 1000 13 = 1000 + roundAlign (13 + PREFIX_SIZE)
    ∧ zfreeUM (zmallocUM 1000 13) 13 = 1000
    ∧ zfreeUM (zreallocUM (zmallocUM 1000 13) 13 29) 29 = 1000 :=
  ⟨(zmalloc_accounting_balance 1000 13 29 (by norm_num) (by norm_num)
      (by norm_num)).1 (by norm_num [roundAlign, PREFIX_SIZE]),
   (zmalloc_accounting_balance 1000 13 29 (by norm_num) (by norm_num)
      (by norm_num)).2.1,
   (zmalloc_accounting_balance 1000 13 29 (by norm_num) (by norm_num)
      (by norm_num)).2.2⟩

end ZmallocM

namespace TSet

/-- The element-survival scan of DIFF algorithm 1, characterised: an element
of the first set survives exactly when it belongs to no non-NULL later set. -/
theorem diffAlgo1Keeps_iff (A : Finset SVal) (x : SVal) (hx : x ∈ A) :
    ∀ Bs : List (Option (Finset SVal)),
      (diffAlgo1Keeps A x Bs = true ↔ ∀ C, some C ∈ Bs → x ∉ C) := by
  intro Bs
  induction Bs with
  | nil => simp [diffAlgo1Keeps]
  | cons hd rest ih =>
    cases hd with
    | none =>
      simp only [diffAlgo1Keeps]
      rw [ih]
      constructor
      · intro h C hC
        rcases List.mem_cons.mp hC with h1 | h2
        · exact absurd h1 (by simp)
        · exact h C h2
      · intro h C hC
        exact h C (List.mem_cons_of_mem _ hC)
    | some B =>
      simp only [diffAlgo1Keeps]
      by_cases hBA : B = A
      · rw [if_pos hBA]
        subst hBA
        simp only [Bool.false_eq_true, false_iff, not_forall]
        exact ⟨B, by simp, by simp [hx]⟩
      · rw [if_neg hBA]
        by_cases hxB : x ∈ B
        · rw [if_pos hxB]
          simp only [Bool.false_eq_true, false_iff, not_forall]
          exact ⟨B, by simp, by simp [hxB]⟩
        · rw [if_neg hxB, ih]
          constructor
          · intro h C hC
            rcases List.mem_cons.mp hC with h1 | h2
            · rw [Option.some.injEq] at h1
              subst h1
              exact hxB
            · exact h C h2
          · intro h C hC
            exact h C (List.mem_cons_of_mem _ hC)

/-- Membership in the result of DIFF algorithm 1. -/
theorem mem_sdiffAlgo1 (A : Finset SVal) (Bs : List (Option (Finset SVal)))
    (x : SVal) :
    x ∈ sdiffAlgo1 A Bs ↔ x ∈ A ∧ ∀ C, some C ∈ Bs → x ∉ C := by
  unfold sdiffAlgo1
  rw [Finset.mem_filter]
  constructor
  · rintro ⟨hA, hk⟩
    exact ⟨hA, (diffAlgo1Keeps_iff A x hA Bs).mp hk⟩
  · rintro ⟨hA, hall⟩
    exact ⟨hA, (diffAlgo1Keeps_iff A x hA Bs).mpr hall⟩

/-- Membership in the subtraction loop of DIFF algorithm 2 (the early exit
on an empty accumulator removes nothing that later subtractions would
remove). -/
theorem mem_sdiffAlgo2Go (Bs : List (Option (Finset SVal))) :
    ∀ (acc : Finset SVal) (x : SVal),
      (x ∈ sdiffAlgo2Go acc Bs ↔ x ∈ acc ∧ ∀ C, some C ∈ Bs → x ∉ C) := by
  induction Bs with
  | nil => intro acc x; simp [sdiffAlgo2Go]
  | cons hd rest ih =>
    intro acc x
    cases hd with
    | none =>
      simp only [sdiffAlgo2Go]
      rw [ih acc x]
      apply and_congr_right'
      constructor
      · intro h C hC
        rcases List.mem_cons.mp hC with h1 | h2
        · exact absurd h1 (by simp)
        · exact h C h2
      · intro h C hC
        exact h C (List.mem_cons_of_mem _ hC)
    | some B =>
      simp only [sdiffAlgo2Go]
      by_cases hcard : (acc \ B).card = 0
      · rw [if_pos hcard]
        have hempty : acc \ B = ∅ := Finset.card_eq_zero.mp hcard
        rw [hempty]
        simp only [Finset.not_mem_empty, false_iff]
        rintro ⟨hacc, hall⟩
        have hxB : x ∉ B := hall B (List.mem_cons_self _ _)
        have hmem : x ∈ acc \ B := Finset.mem_sdiff.mpr ⟨hacc, hxB⟩
        rw [hempty] at hmem
        exact Finset.not_mem_empty x hmem
      · rw [if_neg hcard, ih (acc \ B) x]
        constructor
        · rintro ⟨hmem, hrest⟩
          rcases Finset.mem_sdiff.mp hmem with ⟨hacc, hxB⟩
          refine ⟨hacc, ?_⟩
          intro C hC
          rcases List.mem_cons.mp hC with h1 | h2
          · rw [Option.some.injEq] at h1
            subst h1
            exact hxB
          · exact hrest C h2
        · rintro ⟨hacc, hall⟩
          have hxB : x ∉ B := hall B (List.mem_cons_self _ _)
          exact ⟨Finset.mem_sdiff.mpr ⟨hacc, hxB⟩,
            fun C hC => hall C (List.mem_cons_of_mem _ hC)⟩

/-- The two DIFF algorithms compute the same set. -/
theorem sdiffAlgo1_eq_sdiffAlgo2 (A : Finset SVal)
    (Bs : List (Option (Finset SVal))) : sdiffAlgo1 A Bs = sdiffAlgo2 A Bs := by
  unfold sdiffAlgo2
  by_cases hA : A.card = 0
  · rw [if_pos hA]
    have hempty : A = ∅ := Finset.card_eq_zero.mp hA
    subst hempty
    ext x
    rw [mem_sdiffAlgo1]
    simp
  · rw [if_neg hA]
    ext x
    rw [mem_sdiffAlgo1, mem_sdiffAlgo2Go]

/-- C5: DIFF algorithm 1 (iterate the first set, skip elements found in a
later set) and DIFF algorithm 2 (insert the first set, subtract every later
set) produce the same result set — exactly the members of the first set
belonging to no later set — so the command's output does not depend on the
cost-estimate selection; the result contains no element of any later set,
and the difference of a set with itself is empty. -/
theorem sdiff_algorithms_agree (A : Finset SVal)
    (Bs : List (Option (Finset SVal))) :
    sdiffAlgo1 A Bs = sdiffAlgo2 A Bs
    ∧ sdiffResult A Bs = sdiffAlgo1 A Bs
    ∧ (∀ x, x ∈ sdiffResult A Bs ↔ x ∈ A ∧ ∀ C, some C ∈ Bs → x ∉ C)
    ∧ (∀ C, some C ∈ Bs → ∀ x ∈ sdiffResult A Bs, x ∉ C)
    ∧ sdiffResult A [some A] = ∅ := by
  have halgo : sdiffAlgo1 A Bs = sdiffAlgo2 A Bs := sdiffAlgo1_eq_sdiffAlgo2 A Bs
  have hres : sdiffResult A Bs = sdiffAlgo1 A Bs := by
    unfold sdiffResult
    split
    · rfl
    · exact halgo.symm
  have hmem : ∀ x, x ∈ sdiffResult A Bs ↔ x ∈ A ∧ ∀ C, some C ∈ Bs → x ∉ C := by
    intro x
    rw [hres]
    exact mem_sdiffAlgo1 A Bs x
  refine ⟨halgo, hres, hmem, ?_, ?_⟩
  · intro C hC x hx
    exact ((hmem x).mp hx).2 C hC
  · have hres1 : sdiffResult A [some A] = sdiffAlgo1 A [some A] := by
      unfold sdiffResult
      split
      · rfl
      · exact (sdiffAlgo1_eq_sdiffAlgo2 A [some A]).symm
    rw [hres1]
    ext x
    rw [mem_sdiffAlgo1]
    simp only [Finset.not_mem_empty, iff_false, not_and, not_forall]
    intro hxA
    exact ⟨A, by simp, by simp [hxA]⟩

/-- C5 witness: A = {"1","2"}, B = {"2","3"} — both algorithms give {"1"},
independent of the estimate, and A minus itself is empty. -/
theorem sdiff_algorithms_agree_witness :
    sdiffAlgo1 {[49], [50]} [some {[50], [51]}]
        = sdiffAlgo2 {[49], [50]} [some {[50], [51]}]
    ∧ (some ({[50], [51]} : Finset SVal) ∈ [some ({[50], [51]} : Finset SVal)]
        → ∀ x ∈ sdiffResult {[49], [50]} [some {[50], [51]}], x ∉ ({[50], [51]} : Finset SVal))
    ∧ sdiffResult {[49], [50]} [some {[49], [50]}] = ∅ :=
  ⟨(sdiff_algorithms_agree {[49], [50]} [some {[50], [51]}]).1,
   (sdiff_algorithms_agree {[49], [50]} [some {[50], [51]}]).2.2.2.1 _,
   (sdiff_algorithms_agree {[49], [50]} [some {[49], [50]}]).2.2.2.2⟩

/-- C6: an insertion into an intset-encoded set converts the encoding to
hash-table exactly when the inserted element is not representable as a
64-bit integer, or it is newly inserted and the element count after the
insertion exceeds the configured `set-max-intset-entries` threshold; failed
duplicate insertions and removals leave the intset encoding unchanged, and
no setTypeAdd/setTypeRemove converts a hash-table back. -/
theorem setTypeAdd_intset_conversion (maxEntries : Nat) (s : Finset Int)
    (v : SVal) :
    ((setTypeAdd maxEntries (.intset s) v).1.enc = .ht ↔
      isRepresentableAsLongLong v = none
      ∨ ∃ ll, isRepresentableAsLongLong v = some ll ∧ ll ∉ s
          ∧ maxEntries < (insert ll s).card)
    ∧ (setTypeRemove (.intset s) v).1.enc = .intset
    ∧ (∀ d : Finset SVal, (setTypeAdd maxEntries (.ht d) v).1.enc = .ht
        ∧ (setTypeRemove (.ht d) v).1.enc = .ht) := by
  refine ⟨?_, ?_, ?_⟩
  · cases hrep : isRepresentableAsLongLong v with
    | none => simp [setTypeAdd, hrep, setTypeConvert, SetObj.enc]
    | some ll =>
      by_cases hmem : ll ∈ s
      · simp [setTypeAdd, hrep, hmem, SetObj.enc]
      · have hcard2 : (insert ll s).card = s.card + 1 :=
          Finset.card_insert_of_not_mem hmem
        by_cases hcard : maxEntries < s.card + 1
        · simp [setTypeAdd, hrep, hmem, hcard, hcard2, setTypeConvert,
            SetObj.enc]
        · simp [setTypeAdd, hrep, hmem, hcard, hcard2, SetObj.enc]
  · cases hrep : isRepresentableAsLongLong v with
    | none => simp [setTypeRemove, hrep, SetObj.enc]
    | some ll =>
      by_cases hmem : ll ∈ s <;> simp [setTypeRemove, hrep, hmem, SetObj.enc]
  · intro d
    constructor
    · by_cases hd : v ∈ d <;> simp [setTypeAdd, hd, SetObj.enc]
    · by_cases hd : v ∈ d <;> simp [setTypeRemove, hd, SetObj.enc]

/-- C6 witness: inserting the non-integer "x" into the intset {2} converts
to hash-table; inserting the integer "3" under threshold 512 keeps intset;
removing from an intset keeps intset. -/
theorem setTypeAdd_intset_conversion_witness :
    (setTypeAdd 512 (.intset {2}) [120]).1.enc = .ht
    ∧ (setTypeAdd 512 (.intset {2}) [51]).1.enc = .intset
    ∧ (setTypeRemove (.intset {2}) [50]).1.enc = .intset := by
  refine ⟨(setTypeAdd_intset_conversion 512 {2} [120]).1.mpr (Or.inl (by decide)), ?_, (setTypeAdd_intset_conversion 512 {2} [50]).2.1⟩
  have h := (setTypeAdd_intset_conversion 512 {2} [51]).1
  by_cases henc : (setTypeAdd 512 (.intset {2}) [51]).1.enc = SetEnc.ht
  · exfalso
    rcases h.mp henc with hnone | ⟨ll, hll, -, hcard⟩
    · exact absurd hnone (by decide)
    · have : ll = 3 := by
        have : isRepresentableAsLongLong [51] = some 3 := by decide
        rw [this] at hll
        exact (Option.some.injEq _ _ ▸ hll).symm
      subst this
      have : (insert (3 : Int) ({2} : Finset Int)).card = 2 := by decide
      omega
  · cases hfin : (setTypeAdd 512 (.intset {2}) [51]).1.enc with
    | intset => rfl
    | ht => exact absurd hfin henc

end TSet

namespace TSet

/-- The single-set union reply reproduces a duplicate-free input set. -/
theorem sunionSingleReply_eq (S : List SVal) (h : S.Nodup) :
    sunionSingleReply S = S := by
  suffices h2 : ∀ (l d : List SVal), (d ++ l).Nodup →
      l.foldl (fun d x => (dictAddL d x).1) d = d ++ l by
    simpa [sunionSingleReply] using h2 S [] (by simpa using h)
  intro l
  induction l with
  | nil => intro d _; simp
  | cons x rest ih =>
    intro d hnd
    have hx : x ∉ d := by
      intro hmem
      rcases List.nodup_append.mp hnd with ⟨-, -, hdisj⟩
      exact hdisj hmem (List.mem_cons_self _ _)
    have hstep : (dictAddL d x).1 = d ++ [x] := by simp [dictAddL, hx]
    have hperm : (d ++ [x]) ++ rest = d ++ x :: rest := by simp
    have hnd2 : ((d ++ [x]) ++ rest).Nodup := by rw [hperm]; exact hnd
    simp only [List.foldl_cons, hstep]
    rw [ih (d ++ [x]) hnd2]
    simp

/-- A random pick from a non-empty list is a member. -/
theorem pickL_mem (d : List SVal) (r : Nat) (h : d ≠ []) : pickL d r ∈ d := by
  unfold pickL
  have hlen : r % d.length < d.length := Nat.mod_lt _ (List.length_pos.mpr h)
  rw [List.getD_eq_getElem d [] hlen]
  exact List.getElem_mem hlen

/-- The subtraction strategy removes exactly `steps` members, keeping a
duplicate-free subcollection of the input. -/
theorem case3Loop_spec (rand : Nat → Nat) :
    ∀ (steps k : Nat) (d : List SVal), d.Nodup → steps ≤ d.length →
      (case3Loop rand k steps d).length = d.length - steps
      ∧ (case3Loop rand k steps d).Nodup
      ∧ ∀ x ∈ case3Loop rand k steps d, x ∈ d := by
  intro steps
  induction steps with
  | zero =>
    intro k d hnd _
    exact ⟨by simp [case3Loop], by simpa [case3Loop] using hnd,
      by simp [case3Loop]⟩
  | succ n ih =>
    intro k d hnd hle
    have hne : d ≠ [] := by
      intro hnil
      subst hnil
      simp at hle
    have hx : pickL d (rand k) ∈ d := pickL_mem d (rand k) hne
    have herase_len : (d.erase (pickL d (rand k))).length = d.length - 1 :=
      List.length_erase_of_mem hx
    have herase_nd : (d.erase (pickL d (rand k))).Nodup := hnd.erase _
    have hle2 : n ≤ (d.erase (pickL d (rand k))).length := by omega
    obtain ⟨hl1, hl2, hl3⟩ := ih (k + 1) (d.erase (pickL d (rand k))) herase_nd hle2
    refine ⟨?_, ?_, ?_⟩
    · simp only [case3Loop]
      rw [hl1, herase_len]
      omega
    · simpa [case3Loop] using hl2
    · intro x hxmem
      simp only [case3Loop] at hxmem
      exact List.erase_subset _ _ (hl3 x hxmem)

/-- The insertion strategy, when it terminates within its fuel, returns a
duplicate-free list of exactly `count` members of the set. -/
theorem case4Loop_spec (rand : Nat → Nat) (S : List SVal) (count : Nat)
    (hS : S ≠ []) :
    ∀ (fuel k : Nat) (d res : List SVal), d.Nodup → (∀ x ∈ d, x ∈ S) →
      d.length ≤ count → case4Loop rand S count k fuel d = some res →
      res.length = count ∧ res.Nodup ∧ ∀ x ∈ res, x ∈ S := by
  intro fuel
  induction fuel with
  | zero =>
    intro k d res _ _ _ h
    simp [case4Loop] at h
  | succ n ih =>
    intro k d res hnd hsub hlen h
    simp only [case4Loop] at h
    by_cases hstop : count ≤ d.length
    · rw [if_pos hstop] at h
      injection h with h
      subst h
      exact ⟨by omega, hnd, hsub⟩
    · rw [if_neg hstop] at h
      have hxS : pickL S (rand k) ∈ S := pickL_mem S (rand k) hS
      by_cases hxd : pickL S (rand k) ∈ d
      · rw [show (dictAddL d (pickL S (rand k))).1 = d by
          simp [dictAddL, hxd]] at h
        exact ih (k + 1) d res hnd hsub (by omega) h
      · rw [show (dictAddL d (pickL S (rand k))).1 = d ++ [pickL S (rand k)] by
          simp [dictAddL, hxd]] at h
        have hnd2 : (d ++ [pickL S (rand k)]).Nodup := by
          rw [List.nodup_append]
          exact ⟨hnd, List.nodup_singleton _,
            fun a ha hb => hxd (by rwa [List.mem_singleton.mp hb] at ha)⟩
        have hsub2 : ∀ x ∈ d ++ [pickL S (rand k)], x ∈ S := by
          intro x hxmem
          rcases List.mem_append.mp hxmem with h1 | h2
          · exact hsub x h1
          · rw [List.mem_singleton.mp h2]
            exact hxS
        have hlen2 : (d ++ [pickL S (rand k)]).length ≤ count := by
          simp only [List.length_append, List.length_singleton]
          omega
        exact ih (k + 1) (d ++ [pickL S (rand k)]) res hnd2 hsub2 hlen2 h

/-- C8: for a stored (hence non-empty, duplicate-free) set and a
non-negative count, whenever the sampling command produces a reply it holds
exactly `min count size` distinct members of the set: count 0 gives the
empty reply, `count ≥ size` gives the whole set, and both the subtraction
strategy and the insertion strategy give exactly `count` distinct members. -/
theorem srandmemberWithCount_spec (rand : Nat → Nat) (fuel : Nat)
    (S : List SVal) (count : Nat) (res : List SVal)
    (hnd : S.Nodup) (hne : S ≠ [])
    (h : srandmemberWithCount rand fuel S count = some res) :
    res.length = min count S.length
    ∧ res.Nodup
    ∧ (∀ x ∈ res, x ∈ S)
    ∧ (count = 0 → res = [])
    ∧ (S.length ≤ count → res = S) := by
  unfold srandmemberWithCount at h
  by_cases h0 : count = 0
  · rw [if_pos h0] at h
    injection h with h
    subst h
    subst h0
    refine ⟨by simp, List.nodup_nil, by simp, fun _ => rfl, ?_⟩
    intro hl
    have : S = [] := by
      cases S with
      | nil => rfl
      | cons a l => simp at hl
    rw [this]
  · rw [if_neg h0] at h
    by_cases hge : S.length ≤ count
    · rw [if_pos hge] at h
      injection h with h
      subst h
      rw [sunionSingleReply_eq S hnd]
      exact ⟨(Nat.min_eq_right hge).symm, hnd, fun x hx => hx,
        fun hc => absurd hc h0, fun _ => rfl⟩
    · rw [if_neg hge] at h
      by_cases h3 : S.length < count * 3
      · rw [if_pos h3] at h
        injection h with h
        subst h
        obtain ⟨hl, hnd2, hsub⟩ :=
          case3Loop_spec rand (S.length - count) 0 S hnd (by omega)
        refine ⟨?_, hnd2, hsub, fun hc => absurd hc h0,
          fun hc => absurd hc hge⟩
        rw [hl, Nat.min_eq_left (by omega)]
        omega
      · rw [if_neg h3] at h
        obtain ⟨hl, hnd2, hsub⟩ := case4Loop_spec rand S count hne fuel 0 []
          res List.nodup_nil (by simp) (by simp) h
        exact ⟨by rw [hl, Nat.min_eq_left (by omega)], hnd2, hsub,
          fun hc => absurd hc h0, fun hc => absurd hc hge⟩

/-- C8 witness: the set {"1","2","3"} sampled with count 1 through the
insertion strategy (identity random stream, fuel 5) replies exactly one
member. -/
theorem srandmemberWithCount_spec_witness :
    srandmemberWithCount (fun k => k) 5 [[49], [50], [51]] 1 = some [[49]]
    ∧ ([[49]] : List SVal).length = min 1 ([[49], [50], [51]] : List SVal).length
    ∧ (∀ x ∈ ([[49]] : List SVal), x ∈ ([[49], [50], [51]] : List SVal)) :=
  ⟨by decide,
   (srandmemberWithCount_spec (fun k => k) 5 [[49], [50], [51]] 1 [[49]]
      (by decide) (by decide) (by decide)).1,
   (srandmemberWithCount_spec (fun k => k) 5 [[49], [50], [51]] 1 [[49]]
      (by decide) (by decide) (by decide)).2.2.1⟩

/-- dbDelete preserves the non-empty-sets invariant. -/
theorem setsNonempty_dbDeleteSet (db : SetDb) (k : SVal)
    (h : setsNonempty db) : setsNonempty (dbDeleteSet db k) := by
  intro kv hkv
  exact h kv (List.mem_of_mem_filter hkv)

/-- Updating a key with a non-empty set preserves the invariant. -/
theorem setsNonempty_dbUpdateSet (db : SetDb) (k : SVal) (v : Finset SVal)
    (h : setsNonempty db) (hv : 0 < v.card) :
    setsNonempty (dbUpdateSet db k v) := by
  intro kv hkv
  rcases List.mem_map.mp hkv with ⟨kv0, hkv0, heq⟩
  by_cases hk : kv0.1 = k
  · rw [if_pos hk] at heq
    rw [← heq]
    exact hv
  · rw [if_neg hk] at heq
    rw [← heq]
    exact h kv0 hkv0

/-- A successful keyspace lookup returns a stored value. -/
theorem dbLookupSet_mem (db : SetDb) (k : SVal) (S : Finset SVal)
    (h : dbLookupSet db k = some S) : ∃ k0, (k0, S) ∈ db := by
  unfold dbLookupSet at h
  rcases Option.map_eq_some'.mp h with ⟨kv, hfind, hv⟩
  rcases kv with ⟨k0, v0⟩
  cases hv
  exact ⟨k0, List.mem_of_find?_eq_some hfind⟩

/-- The srem loop preserves the invariant whenever the set it is mutating
is currently non-empty. -/
theorem sremLoop_inv (db : SetDb) (k : SVal) (h : setsNonempty db) :
    ∀ (args : List SVal) (S : Finset SVal), 0 < S.card →
      setsNonempty (sremLoop db k S args) := by
  intro args
  induction args with
  | nil =>
    intro S hS
    exact setsNonempty_dbUpdateSet db k S h hS
  | cons x rest ih =>
    intro S hS
    simp only [sremLoop]
    by_cases hx : x ∈ S
    · rw [if_pos hx]
      by_cases hc : (S.erase x).card = 0
      · rw [if_pos hc]
        exact setsNonempty_dbDeleteSet db k h
      · rw [if_neg hc]
        exact ih (S.erase x) (by omega)
    · rw [if_neg hx]
      exact ih S hS

/-- C10: starting from a keyspace in which every stored set is non-empty,
removing members via SREM, popping via SPOP, and the store form of
intersection, union and difference (which deletes the destination instead
of storing an empty result) all leave every set reachable through the
keyspace with at least one member. -/
theorem set_commands_no_empty_set (db : SetDb) (h : setsNonempty db) :
    (∀ k args, setsNonempty (sremCommand db k args))
    ∧ (∀ k x, setsNonempty (spopCommand db k x))
    ∧ (∀ dstkey dstset, setsNonempty (setStoreResult db dstkey dstset)) := by
  refine ⟨?_, ?_, ?_⟩
  · intro k args
    unfold sremCommand
    cases hl : dbLookupSet db k with
    | none => exact h
    | some S =>
      obtain ⟨k0, hk0⟩ := dbLookupSet_mem db k S hl
      exact sremLoop_inv db k h args S (h (k0, S) hk0)
  · intro k x
    unfold spopCommand
    cases hl : dbLookupSet db k with
    | none => exact h
    | some S =>
      show setsNonempty (if (S.erase x).card = 0 then dbDeleteSet db k
        else dbUpdateSet db k (S.erase x))
      by_cases hc : (S.erase x).card = 0
      · rw [if_pos hc]
        exact setsNonempty_dbDeleteSet db k h
      · rw [if_neg hc]
        exact setsNonempty_dbUpdateSet db k (S.erase x) h (by omega)
  · intro dstkey dstset
    unfold setStoreResult
    by_cases hc : 0 < dstset.card
    · rw [if_pos hc]
      intro kv hkv
      rcases List.mem_cons.mp hkv with h1 | h2
      · rw [h1]
        exact hc
      · exact setsNonempty_dbDeleteSet db dstkey h kv h2
    · rw [if_neg hc]
      exact setsNonempty_dbDeleteSet db dstkey h

/-- C10 witness: a database holding the singleton set {"1"} under key "k";
SREM of that member deletes the key, SPOP deletes the key, storing an empty
intersection result deletes the destination — no empty set remains. -/
theorem set_commands_no_empty_set_witness :
    setsNonempty (sremCommand [([107], {[49]})] [107] [[49]])
    ∧ setsNonempty (spopCommand [([107], {[49]})] [107] [49])
    ∧ setsNonempty (setStoreResult [([107], {[49]})] [107] ∅) := by
  have hinv : setsNonempty [([107], ({[49]} : Finset SVal))] := by
    intro kv hkv
    rw [List.mem_singleton.mp hkv]
    decide
  exact ⟨(set_commands_no_empty_set _ hinv).1 [107] [[49]],
    (set_commands_no_empty_set _ hinv).2.1 [107] [49],
    (set_commands_no_empty_set _ hinv).2.2 [107] ∅⟩

end TSet
